import Mathlib

/-!
# consul-sentry: the notification dispatcher of `sentry.go` and `type.go`

A shallow embedding of the `Sentry` type (callback slots, subscriber sets), its
registration methods, the seven per-kind dispatch methods and the HTTP handler,
followed by theorems about them.

Modelling conventions

* A Go channel and a Go function value are represented by their identity (a
  natural number).  A callback slot is `Option FuncId`, `none` being Go's `nil`.
* A `map[chan T]struct{}` is a finite set of channel identities.
* Everything a method does is recorded in a trace of `Event`s: lock operations,
  accesses to the shared fields, the call to `json.Unmarshal`, callback calls,
  channel sends, `WriteHeader` and log calls.
* Library code the methods call into (`strings.ToLower`, `json.Unmarshal`, the
  iteration order of `range` over a map, whether a receiver is waiting on an
  unbuffered channel) is a parameter, collected in `Env`.
* The decoded payload types come from the consul `api` package; they are the
  type parameter `V`.
* `GetXCh` makes unbuffered channels, so a send completes only when a receiver
  takes the value; a method stuck in such a send never returns (`Ret.blocked`).
* Callbacks are assumed to return normally and not to touch the `Sentry`.
* Each method is run on its own, start to end; interleavings of concurrent
  calls are not modelled.
-/

namespace ConsulSentry

/-- Identity of a Go channel value. -/
abbrev Chan := Nat

/-- Identity of a Go function value. -/
abbrev FuncId := Nat

/-- A Go `[]byte` that is not nil. -/
abbrev Bytes := List UInt8

/-! ## type.go -/

/-- The Go type `WatchType` with its seven declared constants. -/
inductive WatchType where
  | TypeKey
  | TypeKeyPrefix
  | TypeServices
  | TypeNodes
  | TypeService
  | TypeChecks
  | TypeEvent
  deriving DecidableEq, Repr

/-- The method `WatchType.String` of type.go. -/
def WatchType.String : WatchType → String
  | .TypeKey => "key"
  | .TypeKeyPrefix => "keyprefix"
  | .TypeServices => "services"
  | .TypeNodes => "nodes"
  | .TypeService => "service"
  | .TypeChecks => "checks"
  | .TypeEvent => "event"

/-! ## Library types the methods use -/

/-- A Go `error` value that is not nil: a base error, or one wrapped by
`errors.Wrap` of `github.com/pkg/errors`. -/
inductive Error where
  | base (msg : String)
  | wrap (cause : Error) (msg : String)
  deriving DecidableEq, Repr

/-- The function `errors.Wrap` of `github.com/pkg/errors`: nil stays nil, any
other error is wrapped with the message. -/
def errors.Wrap (e : Option Error) (msg : String) : Option Error :=
  match e with
  | none => none
  | some err => some (Error.wrap err msg)

/-- The constant `http.StatusOK`. -/
def http.StatusOK : Nat := 200

/-- The constant `http.StatusBadRequest`. -/
def http.StatusBadRequest : Nat := 400

/-- The constant `http.StatusInternalServerError`. -/
def http.StatusInternalServerError : Nat := 500

/-- What the handler looks at in a `*http.Request`: the value of
`r.Header.Get("type")`, the two results of `ioutil.ReadAll(r.Body)` (a nil
slice is `none`), and the remote address as a stand-in for the remaining
metadata. -/
structure Request where
  typeHeader : String
  body : Option Bytes
  readErr : Option Error
  remoteAddr : String
  deriving DecidableEq, Repr

/-! ## sentry.go: the state -/

/-- The struct `Sentry`.  The field `rwMux` has no state of its own here: its
operations appear in the traces. -/
structure Sentry where
  addr : String
  route : String
  keyFunc : Option FuncId
  keyPrefixFunc : Option FuncId
  servicesFunc : Option FuncId
  nodesFunc : Option FuncId
  serviceFunc : Option FuncId
  checksFunc : Option FuncId
  eventFunc : Option FuncId
  errorFunc : Option FuncId
  keyChs : Finset Chan
  keyPrefixChs : Finset Chan
  servicesChs : Finset Chan
  nodesChs : Finset Chan
  serviceChs : Finset Chan
  checksChs : Finset Chan
  eventChs : Finset Chan
  idx : Finset Nat
  deriving DecidableEq

/-- The function `NewSentry`: empty maps, zero values elsewhere. -/
def NewSentry : Sentry :=
  { addr := "", route := "",
    keyFunc := none, keyPrefixFunc := none, servicesFunc := none, nodesFunc := none,
    serviceFunc := none, checksFunc := none, eventFunc := none, errorFunc := none,
    keyChs := ∅, keyPrefixChs := ∅, servicesChs := ∅, nodesChs := ∅,
    serviceChs := ∅, checksChs := ∅, eventChs := ∅, idx := ∅ }

/-! ## Traces -/

/-- A field of `Sentry` that the methods read or write. -/
inductive Field where
  | addr
  | route
  | func (k : WatchType)
  | errorFunc
  | chs (k : WatchType)
  deriving DecidableEq, Repr

/-- An operation on `s.rwMux` or an access to a field of `s`. -/
inductive Access where
  | Lock
  | Unlock
  | RLock
  | RUnlock
  | read (f : Field)
  | write (f : Field)
  deriving DecidableEq, Repr

/-- One step of a dispatch method or of the handler. -/
inductive Event (V : Type) where
  | access (a : Access)
  | unmarshal (k : WatchType) (b : Bytes)
  | call (k : WatchType) (f : FuncId) (v : V)
  | callError (f : FuncId) (r : Request)
  | send (k : WatchType) (ch : Chan) (v : V)
  | writeHeader (status : Nat)
  | log (msg : String)
  deriving DecidableEq

/-- How a method ends: it returns a value, or it stays blocked in a channel
send for ever. -/
inductive Ret (α : Type) where
  | returned (a : α)
  | blocked
  deriving DecidableEq

/-- The run of a registration method: the state after it, the lock operations
and field accesses it made, and the value it returned. -/
structure Step (α : Type) where
  state : Sentry
  accesses : List Access
  ret : α

/-- The run of a dispatch method or of the handler. -/
structure Run (V α : Type) where
  state : Sentry
  trace : List (Event V)
  ret : Ret α

/-- The library and runtime behaviour the methods depend on.
`ToLower` is `strings.ToLower`; `Unmarshal k` is `json.Unmarshal` into the Go
type of kind `k`; `range m` is the order in which one `for ... range` loop
visits the keys of the map `m` (each key once, in an order the runtime picks);
`receiving ch` tells whether a receiver takes the value sent on the unbuffered
channel `ch`. -/
structure Env (V : Type) where
  ToLower : String → String
  Unmarshal : WatchType → Bytes → Except Error V
  range : Finset Chan → List Chan
  range_nodup : ∀ m, (range m).Nodup
  mem_range : ∀ m ch, ch ∈ range m ↔ ch ∈ m
  receiving : Chan → Bool

/-! ## sentry.go: configuration and registration methods -/

/-- The method `SetAddress`. -/
def Sentry.SetAddress (s : Sentry) (a : String) : Step Unit :=
  ⟨{ s with addr := a }, [.write .addr], ()⟩

/-- The method `SetRoute`. -/
def Sentry.SetRoute (s : Sentry) (r : String) : Step Unit :=
  ⟨{ s with route := r }, [.write .route], ()⟩

/-- The loop `for k := range chs { k <- v }` of the dispatch methods, given the
channels in the order the loop visits them.  A send on an unbuffered channel
nobody receives from never completes, so the loop stops there; the second
component tells whether the loop ran to its end. -/
def sendAll {V : Type} (env : Env V) (k : WatchType) (v : V) :
    List Chan → List (Event V) × Bool
  | [] => ([], true)
  | ch :: rest =>
    if env.receiving ch then
      ((Event.send k ch v) :: (sendAll env k v rest).1, (sendAll env k v rest).2)
    else
      ([], false)

/-- The body shared by the seven dispatch methods `key`, `keyPrefix`,
`services`, `nodes`, `service`, `checks` and `event`, which differ only in the
Go type decoded into (`k`), the callback slot read (`fn`) and the map ranged
over (`chs`): unmarshal; on error return it wrapped; otherwise call the
callback if the slot is not nil, take the read lock, send the decoded value on
every channel of the map, release the lock and return nil. -/
def notify {V : Type} (env : Env V) (s : Sentry) (k : WatchType)
    (fn : Option FuncId) (chs : Finset Chan) (b : Bytes) : Run V (Option Error) :=
  match env.Unmarshal k b with
  | .error e => ⟨s, [.unmarshal k b], .returned (errors.Wrap (some e) "")⟩
  | .ok v =>
    let called : List (Event V) :=
      match fn with
      | some f => [.call k f v]
      | none => []
    let sent := sendAll env k v (env.range chs)
    let pre : List (Event V) :=
      [.unmarshal k b, .access (.read (.func k))] ++ called
        ++ [.access .RLock, .access (.read (.chs k))] ++ sent.1
    if sent.2 then
      ⟨s, pre ++ [.access .RUnlock], .returned none⟩
    else
      ⟨s, pre, .blocked⟩

/-- The method `SetKeyFunc`. -/
def Sentry.SetKeyFunc (s : Sentry) (fn : Option FuncId) : Step Unit :=
  ⟨{ s with keyFunc := fn }, [.write (.func .TypeKey)], ()⟩

/-- The method `GetKeyCh`; `ch` is the channel `make` returned. -/
def Sentry.GetKeyCh (s : Sentry) (ch : Chan) : Step Chan :=
  ⟨{ s with keyChs := insert ch s.keyChs }, [.Lock, .write (.chs .TypeKey), .Unlock], ch⟩

/-- The method `DeleteKeyCh`. -/
def Sentry.DeleteKeyCh (s : Sentry) (ch : Chan) : Step Unit :=
  ⟨{ s with keyChs := s.keyChs.erase ch }, [.Lock, .write (.chs .TypeKey), .Unlock], ()⟩

/-- The method `key`. -/
def Sentry.key {V : Type} (env : Env V) (s : Sentry) (b : Bytes) : Run V (Option Error) :=
  notify env s .TypeKey s.keyFunc s.keyChs b

/-- The method `SetKeyPrefixFunc`. -/
def Sentry.SetKeyPrefixFunc (s : Sentry) (fn : Option FuncId) : Step Unit :=
  ⟨{ s with keyPrefixFunc := fn }, [.write (.func .TypeKeyPrefix)], ()⟩

/-- The method `GetKeyPrefixCh`; `ch` is the channel `make` returned. -/
def Sentry.GetKeyPrefixCh (s : Sentry) (ch : Chan) : Step Chan :=
  ⟨{ s with keyPrefixChs := insert ch s.keyPrefixChs }, [.Lock, .write (.chs .TypeKeyPrefix), .Unlock], ch⟩

/-- The method `DeleteKeyPrefixCh`. -/
def Sentry.DeleteKeyPrefixCh (s : Sentry) (ch : Chan) : Step Unit :=
  ⟨{ s with keyPrefixChs := s.keyPrefixChs.erase ch }, [.Lock, .write (.chs .TypeKeyPrefix), .Unlock], ()⟩

/-- The method `keyPrefix`. -/
def Sentry.keyPrefix {V : Type} (env : Env V) (s : Sentry) (b : Bytes) : Run V (Option Error) :=
  notify env s .TypeKeyPrefix s.keyPrefixFunc s.keyPrefixChs b

/-- The method `SetServicesFunc`. -/
def Sentry.SetServicesFunc (s : Sentry) (fn : Option FuncId) : Step Unit :=
  ⟨{ s with servicesFunc := fn }, [.write (.func .TypeServices)], ()⟩

/-- The method `GetServicesCh`; `ch` is the channel `make` returned. -/
def Sentry.GetServicesCh (s : Sentry) (ch : Chan) : Step Chan :=
  ⟨{ s with servicesChs := insert ch s.servicesChs }, [.Lock, .write (.chs .TypeServices), .Unlock], ch⟩

/-- The method `DeleteServicesCh`. -/
def Sentry.DeleteServicesCh (s : Sentry) (ch : Chan) : Step Unit :=
  ⟨{ s with servicesChs := s.servicesChs.erase ch }, [.Lock, .write (.chs .TypeServices), .Unlock], ()⟩

/-- The method `services`. -/
def Sentry.services {V : Type} (env : Env V) (s : Sentry) (b : Bytes) : Run V (Option Error) :=
  notify env s .TypeServices s.servicesFunc s.servicesChs b

/-- The method `SetNodesFunc`. -/
def Sentry.SetNodesFunc (s : Sentry) (fn : Option FuncId) : Step Unit :=
  ⟨{ s with nodesFunc := fn }, [.write (.func .TypeNodes)], ()⟩

/-- The method `GetNodesCh`; `ch` is the channel `make` returned. -/
def Sentry.GetNodesCh (s : Sentry) (ch : Chan) : Step Chan :=
  ⟨{ s with nodesChs := insert ch s.nodesChs }, [.Lock, .write (.chs .TypeNodes), .Unlock], ch⟩

/-- The method `DeleteNodesCh`. -/
def Sentry.DeleteNodesCh (s : Sentry) (ch : Chan) : Step Unit :=
  ⟨{ s with nodesChs := s.nodesChs.erase ch }, [.Lock, .write (.chs .TypeNodes), .Unlock], ()⟩

/-- The method `nodes`. -/
def Sentry.nodes {V : Type} (env : Env V) (s : Sentry) (b : Bytes) : Run V (Option Error) :=
  notify env s .TypeNodes s.nodesFunc s.nodesChs b

/-- The method `SetServiceFunc`. -/
def Sentry.SetServiceFunc (s : Sentry) (fn : Option FuncId) : Step Unit :=
  ⟨{ s with serviceFunc := fn }, [.write (.func .TypeService)], ()⟩

/-- The method `GetServiceCh`; `ch` is the channel `make` returned. -/
def Sentry.GetServiceCh (s : Sentry) (ch : Chan) : Step Chan :=
  ⟨{ s with serviceChs := insert ch s.serviceChs }, [.Lock, .write (.chs .TypeService), .Unlock], ch⟩

/-- The method `DeleteServiceCh`. -/
def Sentry.DeleteServiceCh (s : Sentry) (ch : Chan) : Step Unit :=
  ⟨{ s with serviceChs := s.serviceChs.erase ch }, [.Lock, .write (.chs .TypeService), .Unlock], ()⟩

/-- The method `service`. -/
def Sentry.service {V : Type} (env : Env V) (s : Sentry) (b : Bytes) : Run V (Option Error) :=
  notify env s .TypeService s.serviceFunc s.serviceChs b

/-- The method `SetChecksFunc`. -/
def Sentry.SetChecksFunc (s : Sentry) (fn : Option FuncId) : Step Unit :=
  ⟨{ s with checksFunc := fn }, [.write (.func .TypeChecks)], ()⟩

/-- The method `GetChecksCh`; `ch` is the channel `make` returned. -/
def Sentry.GetChecksCh (s : Sentry) (ch : Chan) : Step Chan :=
  ⟨{ s with checksChs := insert ch s.checksChs }, [.Lock, .write (.chs .TypeChecks), .Unlock], ch⟩

/-- The method `DeleteChecksCh`. -/
def Sentry.DeleteChecksCh (s : Sentry) (ch : Chan) : Step Unit :=
  ⟨{ s with checksChs := s.checksChs.erase ch }, [.Lock, .write (.chs .TypeChecks), .Unlock], ()⟩

/-- The method `checks`. -/
def Sentry.checks {V : Type} (env : Env V) (s : Sentry) (b : Bytes) : Run V (Option Error) :=
  notify env s .TypeChecks s.checksFunc s.checksChs b

/-- The method `SetEventFunc`. -/
def Sentry.SetEventFunc (s : Sentry) (fn : Option FuncId) : Step Unit :=
  ⟨{ s with eventFunc := fn }, [.write (.func .TypeEvent)], ()⟩

/-- The method `GetEventCh`; `ch` is the channel `make` returned. -/
def Sentry.GetEventCh (s : Sentry) (ch : Chan) : Step Chan :=
  ⟨{ s with eventChs := insert ch s.eventChs }, [.Lock, .write (.chs .TypeEvent), .Unlock], ch⟩

/-- The method `DeleteEventCh`. -/
def Sentry.DeleteEventCh (s : Sentry) (ch : Chan) : Step Unit :=
  ⟨{ s with eventChs := s.eventChs.erase ch }, [.Lock, .write (.chs .TypeEvent), .Unlock], ()⟩

/-- The method `event`. -/
def Sentry.event {V : Type} (env : Env V) (s : Sentry) (b : Bytes) : Run V (Option Error) :=
  notify env s .TypeEvent s.eventFunc s.eventChs b

/-- The method `SetErrorFunc`. -/
def Sentry.SetErrorFunc (s : Sentry) (fn : Option FuncId) : Step Unit :=
  ⟨{ s with errorFunc := fn }, [.write .errorFunc], ()⟩

/-! ## sentry.go: the HTTP handler -/

/-- The method `handler`.  `d` is the effect of the `switch t` statement
together with the value of `e` after it. -/
def Sentry.handler {V : Type} (env : Env V) (s : Sentry) (r : Request) : Run V Unit :=
  let t := env.ToLower r.typeHeader
  match r.readErr with
  | some _ => ⟨s, [.writeHeader http.StatusBadRequest, .log "reading body"], .returned ()⟩
  | none =>
    match r.body with
    | none => ⟨s, [.writeHeader http.StatusInternalServerError, .log "nil body"], .returned ()⟩
    | some b =>
      if b.length = 0 then
        ⟨s, [.writeHeader http.StatusBadRequest, .log "empty body"], .returned ()⟩
      else
        let d : Run V (Option Error) :=
          if t = WatchType.TypeKey.String then s.key env b
          else if t = WatchType.TypeKeyPrefix.String then s.keyPrefix env b
          else if t = WatchType.TypeServices.String then s.services env b
          else if t = WatchType.TypeNodes.String then s.nodes env b
          else if t = WatchType.TypeService.String then s.service env b
          else if t = WatchType.TypeChecks.String then s.checks env b
          else if t = WatchType.TypeEvent.String then s.event env b
          else
            match s.errorFunc with
            | some f => ⟨s, [.access (.read .errorFunc), .callError f r], .returned none⟩
            | none => ⟨s, [.access (.read .errorFunc)], .returned none⟩
        match d.ret with
        | .blocked => ⟨d.state, d.trace, .blocked⟩
        | .returned (some _) =>
          ⟨d.state, d.trace ++ [.writeHeader http.StatusInternalServerError, .log "callback"],
            .returned ()⟩
        | .returned none => ⟨d.state, d.trace ++ [.writeHeader http.StatusOK], .returned ()⟩

/-! ## Views indexed by the kind -/

/-- The callback slot of kind `k`. -/
def Sentry.funcOf (s : Sentry) : WatchType → Option FuncId
  | .TypeKey => s.keyFunc
  | .TypeKeyPrefix => s.keyPrefixFunc
  | .TypeServices => s.servicesFunc
  | .TypeNodes => s.nodesFunc
  | .TypeService => s.serviceFunc
  | .TypeChecks => s.checksFunc
  | .TypeEvent => s.eventFunc

/-- The subscriber set of kind `k`. -/
def Sentry.chsOf (s : Sentry) : WatchType → Finset Chan
  | .TypeKey => s.keyChs
  | .TypeKeyPrefix => s.keyPrefixChs
  | .TypeServices => s.servicesChs
  | .TypeNodes => s.nodesChs
  | .TypeService => s.serviceChs
  | .TypeChecks => s.checksChs
  | .TypeEvent => s.eventChs

/-- The dispatch method of kind `k`. -/
def Sentry.dispatch {V : Type} (env : Env V) (s : Sentry) : WatchType → Bytes → Run V (Option Error)
  | .TypeKey => s.key env
  | .TypeKeyPrefix => s.keyPrefix env
  | .TypeServices => s.services env
  | .TypeNodes => s.nodes env
  | .TypeService => s.service env
  | .TypeChecks => s.checks env
  | .TypeEvent => s.event env

/-- The method `SetXFunc` of kind `k`. -/
def Sentry.SetFunc (s : Sentry) : WatchType → Option FuncId → Step Unit
  | .TypeKey => s.SetKeyFunc
  | .TypeKeyPrefix => s.SetKeyPrefixFunc
  | .TypeServices => s.SetServicesFunc
  | .TypeNodes => s.SetNodesFunc
  | .TypeService => s.SetServiceFunc
  | .TypeChecks => s.SetChecksFunc
  | .TypeEvent => s.SetEventFunc

/-- The method `GetXCh` of kind `k`. -/
def Sentry.GetCh (s : Sentry) : WatchType → Chan → Step Chan
  | .TypeKey => s.GetKeyCh
  | .TypeKeyPrefix => s.GetKeyPrefixCh
  | .TypeServices => s.GetServicesCh
  | .TypeNodes => s.GetNodesCh
  | .TypeService => s.GetServiceCh
  | .TypeChecks => s.GetChecksCh
  | .TypeEvent => s.GetEventCh

/-- The method `DeleteXCh` of kind `k`. -/
def Sentry.DeleteCh (s : Sentry) : WatchType → Chan → Step Unit
  | .TypeKey => s.DeleteKeyCh
  | .TypeKeyPrefix => s.DeleteKeyPrefixCh
  | .TypeServices => s.DeleteServicesCh
  | .TypeNodes => s.DeleteNodesCh
  | .TypeService => s.DeleteServiceCh
  | .TypeChecks => s.DeleteChecksCh
  | .TypeEvent => s.DeleteEventCh

/-! ## Reading traces -/

/-- The event is a call of a per-kind callback. -/
def Event.isCall {V : Type} : Event V → Bool
  | .call _ _ _ => true
  | _ => false

/-- The event is a channel send. -/
def Event.isSend {V : Type} : Event V → Bool
  | .send _ _ _ => true
  | _ => false

/-- The event is a call to `json.Unmarshal`. -/
def Event.isDecode {V : Type} : Event V → Bool
  | .unmarshal _ _ => true
  | _ => false

/-- The event is visible to the embedder: a callback call (per-kind or error
callback) or a channel send. -/
def Event.isDelivery {V : Type} : Event V → Bool
  | .call _ _ _ => true
  | .callError _ _ => true
  | .send _ _ _ => true
  | _ => false

/-- The response status: the argument of the first `WriteHeader` call. -/
def status {V : Type} : List (Event V) → Option Nat
  | [] => none
  | .writeHeader c :: _ => some c
  | _ :: rest => status rest

/-- The lock operations and field accesses of a trace, in order. -/
def accessesOf {V : Type} : List (Event V) → List Access
  | [] => []
  | .access a :: rest => a :: accessesOf rest
  | _ :: rest => accessesOf rest

/-- How the running method holds `rwMux`. -/
inductive Held where
  | free
  | shared
  | exclusive
  deriving DecidableEq, Repr

/-- Lock discipline of a sequence of accesses for the fields selected by
`watch`, starting with the lock held as `h`: every write of a selected field
happens with the write lock held, every read with the read or the write lock
held. -/
def guardedFrom (watch : Field → Bool) : Held → List Access → Bool
  | _, [] => true
  | _, .Lock :: rest => guardedFrom watch .exclusive rest
  | _, .Unlock :: rest => guardedFrom watch .free rest
  | _, .RLock :: rest => guardedFrom watch .shared rest
  | _, .RUnlock :: rest => guardedFrom watch .free rest
  | h, .read f :: rest => (!watch f || h != .free) && guardedFrom watch h rest
  | h, .write f :: rest => (!watch f || h == .exclusive) && guardedFrom watch h rest

/-- Lock discipline of a method run that starts without holding the lock. -/
def guarded (watch : Field → Bool) (as : List Access) : Bool :=
  guardedFrom watch .free as

/-- The field is a callback slot (per-kind or error callback). -/
def Field.isFunc : Field → Bool
  | .func _ => true
  | .errorFunc => true
  | _ => false

/-- The field is a subscriber set. -/
def Field.isChs : Field → Bool
  | .chs _ => true
  | _ => false

/-! ## A concrete environment -/

/-- Lower-casing of the ASCII letters, which is what `strings.ToLower` does on
a string of ASCII characters. -/
def asciiLower (s : String) : String :=
  String.mk (s.data.map Char.toLower)

/-- The keys of a map in increasing order: one order a `range` loop may take. -/
def sortedKeys (m : Finset Chan) : List Chan :=
  Quot.liftOn m.val (fun l => l.insertionSort (· ≤ ·)) (fun a b h =>
    List.eq_of_perm_of_sorted
      (((List.perm_insertionSort (· ≤ ·) a).trans h).trans (List.perm_insertionSort (· ≤ ·) b).symm)
      (List.sorted_insertionSort (· ≤ ·) a) (List.sorted_insertionSort (· ≤ ·) b))

/-- A stand-in decoder for examples, in agreement with `json.Unmarshal` on the
bodies used below: `{}` decodes for the two kinds whose Go type is a struct or a
map, `[]` for the five kinds whose Go type is a slice, and nothing else does.
The decoded value is represented by the length of the body. -/
def sampleUnmarshal (k : WatchType) (b : Bytes) : Except Error Nat :=
  match k with
  | .TypeKey | .TypeServices =>
    if b = [123, 125] then .ok b.length else .error (.base "invalid character")
  | _ =>
    if b = [91, 93] then .ok b.length else .error (.base "invalid character")

/-- An environment for examples; `recv` tells which channels have a receiver. -/
def sampleEnv (recv : Chan → Bool) : Env Nat where
  ToLower := asciiLower
  Unmarshal := sampleUnmarshal
  range := sortedKeys
  range_nodup := fun m => by
    obtain ⟨⟨l⟩, hl⟩ := m
    exact (List.perm_insertionSort (· ≤ ·) l).nodup_iff.mpr hl
  mem_range := fun m c => by
    obtain ⟨⟨l⟩, hl⟩ := m
    exact (List.perm_insertionSort (· ≤ ·) l).mem_iff
  receiving := recv

/-- The body `{}`. -/
def bodyObject : Bytes := [123, 125]

/-- The body `x`, which is not JSON. -/
def bodyGarbage : Bytes := [120]

/-- A state with callback `7` and subscribers `0` and `1` for keys, callback `8`
and subscriber `2` for services, and the error callback `9`. -/
def sampleSentry : Sentry :=
  { NewSentry with
    keyFunc := some 7, keyChs := {0, 1},
    servicesFunc := some 8, servicesChs := {2},
    errorFunc := some 9 }

/-- A state with one key subscriber, channel `0`, and no callback. -/
def oneSubscriber : Sentry :=
  { NewSentry with keyChs := {0} }

/-- No dispatch method ran: the trace holds no call to `json.Unmarshal`, no
callback call and no channel send. -/
def noDispatch {V : Type} (t : List (Event V)) : Bool :=
  t.all (fun e => !e.isDecode && !e.isCall && !e.isSend)

/-- A request of type `key` whose body cannot be read. -/
def reqReadFail : Request :=
  { typeHeader := "key", body := some [], readErr := some (.base "unexpected EOF"),
    remoteAddr := "10.0.0.1:4000" }

/-- A request of type `key` with an empty body. -/
def reqEmpty : Request :=
  { typeHeader := "key", body := some [], readErr := none, remoteAddr := "10.0.0.1:4000" }

/-- A request of the unknown type `bogus` with an empty body. -/
def reqBogusEmpty : Request :=
  { typeHeader := "bogus", body := some [], readErr := none, remoteAddr := "10.0.0.1:4000" }

/-- A request of the unknown type `bogus` with the body `{}`. -/
def reqBogus : Request :=
  { typeHeader := "bogus", body := some bodyObject, readErr := none,
    remoteAddr := "10.0.0.1:4000" }

/-- A request with the given type token and body, read without error. -/
def reqTyped (token : String) (b : Bytes) : Request :=
  { typeHeader := token, body := some b, readErr := none, remoteAddr := "10.0.0.1:4000" }

/-! ## Sequences of registration calls -/

/-- A call of a configuration or registration method; for `getCh` the channel
is the one `make` returned inside `GetXCh`. -/
inductive Op where
  | setAddress (a : String)
  | setRoute (r : String)
  | setFunc (k : WatchType) (fn : Option FuncId)
  | setErrorFunc (fn : Option FuncId)
  | getCh (k : WatchType) (made : Chan)
  | deleteCh (k : WatchType) (ch : Chan)
  deriving DecidableEq

/-- The state after one registration call. -/
def Sentry.apply (s : Sentry) : Op → Sentry
  | .setAddress a => (s.SetAddress a).state
  | .setRoute r => (s.SetRoute r).state
  | .setFunc k fn => (s.SetFunc k fn).state
  | .setErrorFunc fn => (s.SetErrorFunc fn).state
  | .getCh k made => (s.GetCh k made).state
  | .deleteCh k ch => (s.DeleteCh k ch).state

/-- The state after a sequence of registration calls, first call first. -/
def Sentry.applyAll (s : Sentry) : List Op → Sentry
  | [] => s
  | op :: rest => (s.apply op).applyAll rest

/-! ## Lemmas on the shared dispatch body -/

section Lemmas

variable {V : Type}

theorem sendAll_of_receiving (env : Env V) (k : WatchType) (v : V) (l : List Chan)
    (h : ∀ ch ∈ l, env.receiving ch = true) :
    sendAll env k v l = (l.map (fun ch => Event.send k ch v), true) := by
  induction l with
  | nil => rfl
  | cons c rest ih =>
    have hc : env.receiving c = true := h c (List.mem_cons_self _ _)
    have hr := ih (fun ch hch => h ch (List.mem_cons_of_mem _ hch))
    simp [sendAll, hc, hr]

theorem sendAll_prefix (env : Env V) (k : WatchType) (v : V) (l : List Chan) :
    ∃ n, (sendAll env k v l).1 = (l.take n).map (fun ch => Event.send k ch v) := by
  induction l with
  | nil => exact ⟨0, rfl⟩
  | cons c rest ih =>
    obtain ⟨n, hn⟩ := ih
    by_cases hc : env.receiving c = true
    · exact ⟨n + 1, by simp [sendAll, hc, hn]⟩
    · exact ⟨0, by simp [sendAll, hc]⟩

theorem range_length (env : Env V) (m : Finset Chan) : (env.range m).length = m.card := by
  have h : (env.range m).toFinset = m := by
    ext c
    simp [env.mem_range]
  rw [← List.toFinset_card_of_nodup (env.range_nodup m), h]

theorem count_send_map [DecidableEq V] (k k' : WatchType) (v w : V) (c : Chan) (l : List Chan) :
    (l.map (fun ch => Event.send k ch v)).count (Event.send k' c w)
      = if k' = k ∧ w = v then l.count c else 0 := by
  induction l with
  | nil => simp
  | cons d rest ih =>
    simp only [List.map_cons, List.count_cons, ih, beq_iff_eq, Event.send.injEq]
    by_cases h1 : k = k'
    · by_cases h2 : v = w
      · subst h1 h2
        simp
      · have h2' : ¬ w = v := fun h => h2 h.symm
        simp [h2, h2']
    · have h1' : ¬ k' = k := fun h => h1 h.symm
      simp [h1, h1']

theorem count_range (env : Env V) (m : Finset Chan) (c : Chan) :
    (env.range m).count c = if c ∈ m then 1 else 0 := by
  by_cases h : c ∈ m
  · simp only [h, if_true]
    exact List.count_eq_one_of_mem (env.range_nodup m) ((env.mem_range m c).mpr h)
  · simp only [h, if_false]
    exact List.count_eq_zero_of_not_mem (fun hm => h ((env.mem_range m c).mp hm))

theorem notify_ok (env : Env V) (s : Sentry) (k : WatchType) (fn : Option FuncId)
    (chs : Finset Chan) (b : Bytes) (v : V) (hdec : env.Unmarshal k b = .ok v)
    (hrecv : ∀ ch ∈ chs, env.receiving ch = true) :
    notify env s k fn chs b
      = ⟨s, [.unmarshal k b, .access (.read (.func k))]
            ++ (match fn with
                | some f => [Event.call k f v]
                | none => [])
            ++ [.access .RLock, .access (.read (.chs k))]
            ++ (env.range chs).map (fun ch => Event.send k ch v)
            ++ [.access .RUnlock], .returned none⟩ := by
  have hs := sendAll_of_receiving env k v (env.range chs)
    (fun ch hch => hrecv ch ((env.mem_range chs ch).mp hch))
  simp [notify, hdec, hs]

theorem count_call_map [DecidableEq V] (k k' : WatchType) (v w : V) (f : FuncId)
    (l : List Chan) :
    (l.map (fun ch => Event.send k ch v)).count (Event.call k' f w) = 0 :=
  List.count_eq_zero_of_not_mem (by simp)

theorem count_callError_map [DecidableEq V] (k : WatchType) (v : V) (f : FuncId) (q : Request)
    (l : List Chan) :
    (l.map (fun ch => Event.send k ch v)).count (Event.callError f q) = 0 :=
  List.count_eq_zero_of_not_mem (by simp)

theorem filter_isSend_map (k : WatchType) (v : V) (l : List Chan) :
    (l.map (fun ch => Event.send k ch v)).filter Event.isSend
      = l.map (fun ch => Event.send k ch v) := by
  induction l with
  | nil => rfl
  | cons c rest ih => simp [List.filter_cons, Event.isSend, ih]

theorem notify_delivers [DecidableEq V] (env : Env V) (s : Sentry) (k : WatchType)
    (fn : Option FuncId) (chs : Finset Chan) (b : Bytes) (v : V)
    (hdec : env.Unmarshal k b = .ok v) (hrecv : ∀ ch ∈ chs, env.receiving ch = true) :
    (notify env s k fn chs b).ret = .returned none
    ∧ (notify env s k fn chs b).state = s
    ∧ (∀ k' f w, (notify env s k fn chs b).trace.count (.call k' f w)
          = if k' = k ∧ fn = some f ∧ w = v then 1 else 0)
    ∧ (∀ k' ch w, (notify env s k fn chs b).trace.count (.send k' ch w)
          = if k' = k ∧ ch ∈ chs ∧ w = v then 1 else 0)
    ∧ (∀ f q, (notify env s k fn chs b).trace.count (.callError f q) = 0)
    ∧ ((notify env s k fn chs b).trace.filter Event.isSend).length = chs.card
    ∧ (fn = none → chs = ∅ → (notify env s k fn chs b).trace.filter Event.isDelivery = []) := by
  rw [notify_ok env s k fn chs b v hdec hrecv]
  refine ⟨rfl, rfl, ?_, ?_, ?_, ?_, ?_⟩
  · intro k' f w
    cases fn with
    | none => simp [List.count_append, List.count_cons, count_call_map]
    | some g =>
      simp only [List.count_append, List.count_cons, count_call_map, beq_iff_eq,
        Event.call.injEq, List.count_nil, Option.some.injEq]
      by_cases h : k = k' ∧ g = f ∧ v = w
      · obtain ⟨h1, h2, h3⟩ := h
        subst h1 h2 h3
        simp
      · have h' : ¬ (k' = k ∧ g = f ∧ w = v) := fun ⟨a, b', c⟩ => h ⟨a.symm, b', c.symm⟩
        simp [h, h']
  · intro k' ch w
    cases fn <;>
      simp [List.count_append, List.count_cons, count_send_map, count_range] <;>
      by_cases h1 : k' = k <;> by_cases h2 : w = v <;> by_cases h3 : ch ∈ chs <;>
      simp [h1, h2, h3]
  · intro f q
    cases fn <;> simp [List.count_append, List.count_cons, count_callError_map]
  · cases fn <;>
      simp [List.filter_append, List.filter_cons, Event.isSend, filter_isSend_map, range_length]
  · intro hfn hchs
    subst hfn hchs
    have hr : env.range ∅ = [] := by
      apply List.eq_nil_iff_forall_not_mem.mpr
      intro c hc
      exact absurd ((env.mem_range ∅ c).mp hc) (Finset.not_mem_empty c)
    simp [hr, List.filter_cons, Event.isDelivery]

theorem mem_sendAll (env : Env V) (k : WatchType) (v : V) (l : List Chan) (e : Event V)
    (h : e ∈ (sendAll env k v l).1) : ∃ ch ∈ l, e = Event.send k ch v := by
  obtain ⟨n, hn⟩ := sendAll_prefix env k v l
  rw [hn, List.mem_map] at h
  obtain ⟨ch, hch, rfl⟩ := h
  exact ⟨ch, List.mem_of_mem_take hch, rfl⟩

/-- The trace of the shared dispatch body when the payload decodes: a fixed
head, then the completed sends, then the unlock if the loop ran to its end. -/
theorem notify_trace_ok (env : Env V) (s : Sentry) (k : WatchType) (fn : Option FuncId)
    (chs : Finset Chan) (b : Bytes) (v : V) (hdec : env.Unmarshal k b = .ok v) :
    ∃ tail : List (Event V),
      (notify env s k fn chs b).trace
        = [.unmarshal k b, .access (.read (.func k))]
            ++ (match fn with
                | some f => [Event.call k f v]
                | none => [])
            ++ ([.access .RLock, .access (.read (.chs k))] ++ tail)
      ∧ (∀ e ∈ tail, (∃ ch ∈ chs, e = Event.send k ch v) ∨ e = .access .RUnlock) := by
  by_cases hdone : (sendAll env k v (env.range chs)).2 = true
  · refine ⟨(sendAll env k v (env.range chs)).1 ++ [.access .RUnlock], ?_, ?_⟩
    · simp [notify, hdec, hdone]
    · intro e he
      rcases List.mem_append.mp he with h | h
      · obtain ⟨ch, hch, rfl⟩ := mem_sendAll env k v _ e h
        exact Or.inl ⟨ch, (env.mem_range chs ch).mp hch, rfl⟩
      · exact Or.inr (List.mem_singleton.mp h)
  · refine ⟨(sendAll env k v (env.range chs)).1, ?_, ?_⟩
    · simp [notify, hdec, hdone]
    · intro e he
      obtain ⟨ch, hch, rfl⟩ := mem_sendAll env k v _ e he
      exact Or.inl ⟨ch, (env.mem_range chs ch).mp hch, rfl⟩

theorem notify_send_mem (env : Env V) (s : Sentry) (k : WatchType) (fn : Option FuncId)
    (chs : Finset Chan) (b : Bytes) (k' : WatchType) (ch : Chan) (w : V)
    (h : Event.send k' ch w ∈ (notify env s k fn chs b).trace) : k' = k ∧ ch ∈ chs := by
  cases hdec : env.Unmarshal k b with
  | error e => simp [notify, hdec] at h
  | ok v =>
    obtain ⟨tail, ht, htail⟩ := notify_trace_ok env s k fn chs b v hdec
    rw [ht] at h
    cases fn with
    | none =>
      simp only [List.append_nil, List.cons_append, List.nil_append, List.mem_cons] at h
      rcases h with h | h | h | h | h
      · cases h
      · cases h
      · cases h
      · cases h
      · rcases htail _ h with ⟨c, hc, he⟩ | he
        · cases he
          exact ⟨rfl, hc⟩
        · cases he
    | some f =>
      simp only [List.cons_append, List.nil_append, List.mem_cons] at h
      rcases h with h | h | h | h | h | h
      · cases h
      · cases h
      · cases h
      · cases h
      · cases h
      · rcases htail _ h with ⟨c, hc, he⟩ | he
        · cases he
          exact ⟨rfl, hc⟩
        · cases he

theorem dispatch_send_mem (env : Env V) (s : Sentry) (K : WatchType) (b : Bytes)
    (k' : WatchType) (ch : Chan) (w : V)
    (h : Event.send k' ch w ∈ (s.dispatch env K b).trace) : k' = K ∧ ch ∈ s.chsOf K := by
  cases K <;> exact notify_send_mem env s _ _ _ b k' ch w h

theorem chsOf_apply (s : Sentry) (op : Op) (K : WatchType) (ch : Chan)
    (hfresh : ∀ k, op ≠ .getCh k ch) (h : ch ∉ s.chsOf K) : ch ∉ (s.apply op).chsOf K := by
  cases op with
  | setAddress a => exact h
  | setRoute r => exact h
  | setFunc k fn => cases k <;> exact h
  | setErrorFunc fn => exact h
  | getCh k made =>
    have hne : ch ≠ made := fun hc => hfresh k (by rw [hc])
    cases k <;> cases K <;>
      simp_all [Sentry.apply, Sentry.GetCh, Sentry.chsOf, Sentry.GetKeyCh, Sentry.GetKeyPrefixCh,
        Sentry.GetServicesCh, Sentry.GetNodesCh, Sentry.GetServiceCh, Sentry.GetChecksCh,
        Sentry.GetEventCh]
  | deleteCh k c =>
    cases k <;> cases K <;>
      simp_all [Sentry.apply, Sentry.DeleteCh, Sentry.chsOf, Sentry.DeleteKeyCh,
        Sentry.DeleteKeyPrefixCh, Sentry.DeleteServicesCh, Sentry.DeleteNodesCh,
        Sentry.DeleteServiceCh, Sentry.DeleteChecksCh, Sentry.DeleteEventCh]

theorem chsOf_applyAll (ops : List Op) (s : Sentry) (K : WatchType) (ch : Chan)
    (hfresh : ∀ k, Op.getCh k ch ∉ ops) (h : ch ∉ s.chsOf K) :
    ch ∉ (s.applyAll ops).chsOf K := by
  induction ops generalizing s with
  | nil => exact h
  | cons op rest ih =>
    apply ih (s.apply op) (fun k hk => hfresh k (List.mem_cons_of_mem _ hk))
    exact chsOf_apply s op K ch (fun k hk => hfresh k (by rw [hk]; exact List.mem_cons_self _ _)) h

theorem notify_calls (env : Env V) (s : Sentry) (k : WatchType) (fn : Option FuncId)
    (chs : Finset Chan) (b : Bytes) (v : V) (hdec : env.Unmarshal k b = .ok v) :
    (notify env s k fn chs b).trace.filter Event.isCall
      = (match fn with
         | some f => [Event.call k f v]
         | none => []) := by
  obtain ⟨tail, ht, htail⟩ := notify_trace_ok env s k fn chs b v hdec
  have hnil : tail.filter Event.isCall = [] := by
    apply List.filter_eq_nil_iff.mpr
    intro e he
    rcases htail e he with ⟨c, _, rfl⟩ | rfl <;> simp [Event.isCall]
  rw [ht]
  cases fn <;> simp [List.filter_append, List.filter_cons, Event.isCall, hnil]

/-- When a trace splits into a part without sends followed by a part without
callback calls, nothing before a callback call is a send. -/
theorem no_send_before_call (A B pre post : List (Event V)) (e : Event V)
    (hA : ∀ x ∈ A, x.isSend = false) (hB : ∀ x ∈ B, x.isCall = false)
    (h : A ++ B = pre ++ e :: post) (he : e.isCall = true) : ∀ x ∈ pre, x.isSend = false := by
  rcases List.append_eq_append_iff.mp h with ⟨a', _, h2⟩ | ⟨c', h1, _⟩
  · have : e ∈ B := by rw [h2]; exact List.mem_append_right _ (List.mem_cons_self _ _)
    rw [hB e this] at he
    cases he
  · intro x hx
    exact hA x (by rw [h1]; exact List.mem_append_left _ hx)

theorem notify_call_first (env : Env V) (s : Sentry) (k : WatchType) (fn : Option FuncId)
    (chs : Finset Chan) (b : Bytes) (pre post : List (Event V)) (e : Event V)
    (h : (notify env s k fn chs b).trace = pre ++ e :: post) (he : e.isCall = true) :
    ∀ x ∈ pre, x.isSend = false := by
  cases hdec : env.Unmarshal k b with
  | error err =>
    have ht : (notify env s k fn chs b).trace = [.unmarshal k b] := by simp [notify, hdec]
    rw [ht] at h
    refine no_send_before_call [.unmarshal k b] [] pre post e ?_ ?_ (by simpa using h) he
    · intro x hx
      rw [List.mem_singleton.mp hx]
      rfl
    · intro x hx
      cases hx
  | ok v =>
    obtain ⟨tail, ht, htail⟩ := notify_trace_ok env s k fn chs b v hdec
    rw [ht] at h
    refine no_send_before_call _ _ pre post e ?_ ?_ h he
    · intro x hx
      cases fn <;> simp at hx <;> rcases hx with rfl | rfl | rfl <;> rfl
    · intro x hx
      simp only [List.cons_append, List.nil_append, List.mem_cons] at hx
      rcases hx with rfl | rfl | hx
      · rfl
      · rfl
      · rcases htail x hx with ⟨c, _, rfl⟩ | rfl <;> rfl

theorem notify_state (env : Env V) (s : Sentry) (k : WatchType) (fn : Option FuncId)
    (chs : Finset Chan) (b : Bytes) : (notify env s k fn chs b).state = s := by
  unfold notify
  split
  · rfl
  · dsimp only
    split <;> rfl

theorem dispatch_state (env : Env V) (s : Sentry) (K : WatchType) (b : Bytes) :
    (s.dispatch env K b).state = s := by
  cases K <;> exact notify_state env s _ _ _ b

/-- Every event of a dispatch is the decode attempt, an access, a callback call
of that kind or a send of that kind. -/
theorem notify_events (env : Env V) (s : Sentry) (k : WatchType) (fn : Option FuncId)
    (chs : Finset Chan) (b : Bytes) (e : Event V) (he : e ∈ (notify env s k fn chs b).trace) :
    e = .unmarshal k b ∨ (∃ a, e = .access a) ∨ (∃ f w, e = .call k f w)
      ∨ (∃ ch w, e = .send k ch w) := by
  cases hdec : env.Unmarshal k b with
  | error err =>
    have ht : (notify env s k fn chs b).trace = [.unmarshal k b] := by simp [notify, hdec]
    rw [ht, List.mem_singleton] at he
    exact Or.inl he
  | ok v =>
    obtain ⟨tail, ht, htail⟩ := notify_trace_ok env s k fn chs b v hdec
    rw [ht] at he
    have htl : ∀ x ∈ tail, (∃ a, x = Event.access a) ∨ (∃ ch w, x = Event.send k ch w) := by
      intro x hx
      rcases htail x hx with ⟨c, _, rfl⟩ | rfl
      · exact Or.inr ⟨c, v, rfl⟩
      · exact Or.inl ⟨_, rfl⟩
    cases fn with
    | none =>
      simp only [List.append_nil, List.cons_append, List.nil_append, List.mem_cons] at he
      rcases he with rfl | rfl | rfl | rfl | he
      · exact Or.inl rfl
      · exact Or.inr (Or.inl ⟨_, rfl⟩)
      · exact Or.inr (Or.inl ⟨_, rfl⟩)
      · exact Or.inr (Or.inl ⟨_, rfl⟩)
      · rcases htl e he with h | h
        · exact Or.inr (Or.inl h)
        · exact Or.inr (Or.inr (Or.inr h))
    | some f =>
      simp only [List.cons_append, List.nil_append, List.mem_cons] at he
      rcases he with rfl | rfl | rfl | rfl | rfl | he
      · exact Or.inl rfl
      · exact Or.inr (Or.inl ⟨_, rfl⟩)
      · exact Or.inr (Or.inr (Or.inl ⟨f, v, rfl⟩))
      · exact Or.inr (Or.inl ⟨_, rfl⟩)
      · exact Or.inr (Or.inl ⟨_, rfl⟩)
      · rcases htl e he with h | h
        · exact Or.inr (Or.inl h)
        · exact Or.inr (Or.inr (Or.inr h))

theorem dispatch_events (env : Env V) (s : Sentry) (K : WatchType) (b : Bytes) (e : Event V)
    (he : e ∈ (s.dispatch env K b).trace) :
    e = .unmarshal K b ∨ (∃ a, e = .access a) ∨ (∃ f w, e = .call K f w)
      ∨ (∃ ch w, e = .send K ch w) := by
  cases K <;> exact notify_events env s _ _ _ b e he

theorem dispatch_decodes (env : Env V) (s : Sentry) (K : WatchType) (b : Bytes) :
    Event.unmarshal K b ∈ (s.dispatch env K b).trace := by
  have key : ∀ fn chs, Event.unmarshal K b ∈ (notify env s K fn chs b).trace := by
    intro fn chs
    cases hdec : env.Unmarshal K b with
    | error err => simp [notify, hdec]
    | ok v =>
      obtain ⟨tail, ht, _⟩ := notify_trace_ok env s K fn chs b v hdec
      rw [ht]
      simp
  cases K <;> exact key _ _

theorem status_append (l t : List (Event V)) (h : ∀ c, Event.writeHeader c ∉ l) :
    status (l ++ t) = status t := by
  induction l with
  | nil => rfl
  | cons x rest ih =>
    have hr : ∀ c, Event.writeHeader c ∉ rest := fun c hc => h c (List.mem_cons_of_mem _ hc)
    cases x with
    | writeHeader c => exact absurd (List.mem_cons_self _ _) (h c)
    | access a => exact ih hr
    | unmarshal k b => exact ih hr
    | call k f v => exact ih hr
    | callError f r => exact ih hr
    | send k ch v => exact ih hr
    | log msg => exact ih hr

theorem dispatch_no_header (env : Env V) (s : Sentry) (K : WatchType) (b : Bytes) (c : Nat) :
    Event.writeHeader c ∉ (s.dispatch env K b).trace := by
  intro h
  rcases dispatch_events env s K b _ h with h | ⟨_, h⟩ | ⟨_, _, h⟩ | ⟨_, _, h⟩ <;> cases h

/-- The dispatch method the `switch` of the handler selects for the token of
kind `K`, and what the handler does after it. -/
theorem handler_of_token (env : Env V) (s : Sentry) (K : WatchType) (r : Request) (b : Bytes)
    (ht : env.ToLower r.typeHeader = K.String) (herr : r.readErr = none)
    (hbody : r.body = some b) (hne : b ≠ []) :
    s.handler env r
      = (match (s.dispatch env K b).ret with
         | .blocked => ⟨s, (s.dispatch env K b).trace, .blocked⟩
         | .returned (some _) =>
           ⟨s, (s.dispatch env K b).trace
                ++ [.writeHeader http.StatusInternalServerError, .log "callback"], .returned ()⟩
         | .returned none =>
           ⟨s, (s.dispatch env K b).trace ++ [.writeHeader http.StatusOK], .returned ()⟩) := by
  have hlen : b.length ≠ 0 := fun h => hne (List.length_eq_zero.mp h)
  have hst := dispatch_state env s K b
  cases K <;>
    simp only [Sentry.handler, herr, hbody, ht, hlen, WatchType.String, Sentry.dispatch,
      if_true, if_false, reduceIte] at hst ⊢ <;>
    simp only [String.reduceEq, if_true, if_false, reduceIte, hst]

/-- What the handler does on the `default` branch of its `switch`. -/
theorem handler_default (env : Env V) (s : Sentry) (r : Request) (b : Bytes)
    (hunk : ∀ K : WatchType, env.ToLower r.typeHeader ≠ K.String) (herr : r.readErr = none)
    (hbody : r.body = some b) (hne : b ≠ []) :
    s.handler env r
      = ⟨s, [.access (.read .errorFunc)]
            ++ (match s.errorFunc with
                | some f => [Event.callError f r]
                | none => [])
            ++ [.writeHeader http.StatusOK], .returned ()⟩ := by
  have hlen : b.length ≠ 0 := fun h => hne (List.length_eq_zero.mp h)
  have h1 := hunk .TypeKey
  have h2 := hunk .TypeKeyPrefix
  have h3 := hunk .TypeServices
  have h4 := hunk .TypeNodes
  have h5 := hunk .TypeService
  have h6 := hunk .TypeChecks
  have h7 := hunk .TypeEvent
  cases hf : s.errorFunc <;>
    simp only [Sentry.handler, herr, hbody, hlen, h1, h2, h3, h4, h5, h6, h7, hf, if_false,
      reduceIte, List.cons_append, List.nil_append, List.append_nil]

theorem accessesOf_append (l t : List (Event V)) :
    accessesOf (l ++ t) = accessesOf l ++ accessesOf t := by
  induction l with
  | nil => rfl
  | cons x rest ih => cases x <;> simp [accessesOf, ih]

theorem accessesOf_sends (k : WatchType) (v : V) (l : List Chan) :
    accessesOf (l.map (fun ch => Event.send k ch v)) = [] := by
  induction l with
  | nil => rfl
  | cons c rest ih => simpa [accessesOf] using ih

/-- The lock operations and field accesses of the shared dispatch body. -/
theorem notify_accesses (env : Env V) (s : Sentry) (k : WatchType) (fn : Option FuncId)
    (chs : Finset Chan) (b : Bytes) :
    accessesOf (notify env s k fn chs b).trace
      = (match env.Unmarshal k b with
         | .error _ => []
         | .ok v =>
           [.read (.func k), .RLock, .read (.chs k)]
             ++ (if (sendAll env k v (env.range chs)).2 then [Access.RUnlock] else [])) := by
  cases hdec : env.Unmarshal k b with
  | error err => simp [notify, hdec, accessesOf]
  | ok v =>
    obtain ⟨n, hn⟩ := sendAll_prefix env k v (env.range chs)
    have hacc : accessesOf (sendAll env k v (env.range chs)).1 = [] := by
      rw [hn]
      exact accessesOf_sends k v _
    by_cases hdone : (sendAll env k v (env.range chs)).2 = true <;>
      cases fn <;>
      simp [notify, hdec, hdone, hacc, accessesOf, accessesOf_append]

theorem dispatch_accesses (env : Env V) (s : Sentry) (K : WatchType) (b : Bytes) :
    accessesOf (s.dispatch env K b).trace
      = (match env.Unmarshal K b with
         | .error _ => []
         | .ok v =>
           [.read (.func K), .RLock, .read (.chs K)]
             ++ (if (sendAll env K v (env.range (s.chsOf K))).2 then [Access.RUnlock] else [])) := by
  cases K <;> exact notify_accesses env s _ _ _ b

/-- The lock operations and field accesses of the handler: those of the
dispatch method it selects, the read of the error callback slot on the default
branch, none when the body is rejected. -/
theorem handler_accesses (env : Env V) (s : Sentry) (r : Request) :
    accessesOf (s.handler env r).trace = []
    ∨ accessesOf (s.handler env r).trace = [.read .errorFunc]
    ∨ ∃ K b, accessesOf (s.handler env r).trace = accessesOf (s.dispatch env K b).trace := by
  cases herr : r.readErr with
  | some e => exact Or.inl (by simp [Sentry.handler, herr, accessesOf])
  | none =>
    cases hbody : r.body with
    | none => exact Or.inl (by simp [Sentry.handler, herr, hbody, accessesOf])
    | some b =>
      by_cases hne : b = []
      · exact Or.inl (by simp [Sentry.handler, herr, hbody, hne, accessesOf])
      · by_cases hK : ∃ K : WatchType, env.ToLower r.typeHeader = K.String
        · obtain ⟨K, ht⟩ := hK
          refine Or.inr (Or.inr ⟨K, b, ?_⟩)
          rw [handler_of_token env s K r b ht herr hbody hne]
          cases (s.dispatch env K b).ret with
          | blocked => rfl
          | returned e => cases e <;> simp [accessesOf_append, accessesOf]
        · refine Or.inr (Or.inl ?_)
          rw [handler_default env s r b (fun K h => hK ⟨K, h⟩) herr hbody hne]
          cases s.errorFunc <;> simp [accessesOf]

end Lemmas

/-! ## Dispatch of one payload -/

section Dispatch

variable {V : Type}

/-- C1 (as amended): for every kind `K`, every state of the callback slot and
every set of channels subscribed to `K`, each with a receiver taking the value:
dispatching a well-formed payload returns nil and leaves the state as it was;
a callback call occurs in the trace exactly once if it is the slot's function
called with the decoded value, and never otherwise; a send occurs exactly once
if it is a send of the decoded value on a subscribed channel of `K`, and never
otherwise, so that there are as many sends as subscribers; the error callback
is not called; and with an empty slot and no subscriber nothing is delivered. -/
theorem dispatch_delivers_once [DecidableEq V] (env : Env V) (s : Sentry) (K : WatchType)
    (b : Bytes) (v : V) (hdec : env.Unmarshal K b = .ok v)
    (hrecv : ∀ ch ∈ s.chsOf K, env.receiving ch = true) :
    (s.dispatch env K b).ret = .returned none
    ∧ (s.dispatch env K b).state = s
    ∧ (∀ k f w, (s.dispatch env K b).trace.count (.call k f w)
          = if k = K ∧ s.funcOf K = some f ∧ w = v then 1 else 0)
    ∧ (∀ k ch w, (s.dispatch env K b).trace.count (.send k ch w)
          = if k = K ∧ ch ∈ s.chsOf K ∧ w = v then 1 else 0)
    ∧ (∀ f q, (s.dispatch env K b).trace.count (.callError f q) = 0)
    ∧ ((s.dispatch env K b).trace.filter Event.isSend).length = (s.chsOf K).card
    ∧ (s.funcOf K = none → s.chsOf K = ∅ →
          (s.dispatch env K b).trace.filter Event.isDelivery = []) := by
  cases K <;> exact notify_delivers env s _ _ _ b v hdec hrecv

/-- C1, instance: callback `7` and the subscribers `0` and `1`, both received
from, on the body `{}`. -/
theorem dispatch_delivers_once_witness :
    (sampleSentry.dispatch (sampleEnv (fun _ => true)) .TypeKey bodyObject).ret = .returned none
    ∧ (sampleSentry.dispatch (sampleEnv (fun _ => true)) .TypeKey bodyObject).state = sampleSentry
    ∧ (∀ k f w, (sampleSentry.dispatch (sampleEnv (fun _ => true)) .TypeKey bodyObject).trace.count
            (.call k f w)
          = if k = .TypeKey ∧ sampleSentry.funcOf .TypeKey = some f ∧ w = 2 then 1 else 0)
    ∧ (∀ k ch w, (sampleSentry.dispatch (sampleEnv (fun _ => true)) .TypeKey bodyObject).trace.count
            (.send k ch w)
          = if k = .TypeKey ∧ ch ∈ sampleSentry.chsOf .TypeKey ∧ w = 2 then 1 else 0)
    ∧ (∀ f q, (sampleSentry.dispatch (sampleEnv (fun _ => true)) .TypeKey bodyObject).trace.count
            (.callError f q) = 0)
    ∧ ((sampleSentry.dispatch (sampleEnv (fun _ => true)) .TypeKey bodyObject).trace.filter
            Event.isSend).length = (sampleSentry.chsOf .TypeKey).card
    ∧ (sampleSentry.funcOf .TypeKey = none → sampleSentry.chsOf .TypeKey = ∅ →
          (sampleSentry.dispatch (sampleEnv (fun _ => true)) .TypeKey bodyObject).trace.filter
            Event.isDelivery = []) :=
  dispatch_delivers_once (sampleEnv (fun _ => true)) sampleSentry .TypeKey bodyObject 2 rfl
    (fun _ _ => rfl)

/-- C1, counterexample to the claim as stated: the body `{}` is well-formed and
channel `0` is subscribed to keys, but nobody receives from it; the dispatch
does not return nil (it never returns) and performs no send on channel `0`. -/
theorem dispatch_blocks_without_receiver :
    (sampleEnv (fun _ => false)).Unmarshal .TypeKey bodyObject = .ok 2
    ∧ (0 : Chan) ∈ oneSubscriber.chsOf .TypeKey
    ∧ (oneSubscriber.dispatch (sampleEnv (fun _ => false)) .TypeKey bodyObject).ret
        ≠ .returned none
    ∧ (oneSubscriber.dispatch (sampleEnv (fun _ => false)) .TypeKey bodyObject).ret = .blocked
    ∧ (oneSubscriber.dispatch (sampleEnv (fun _ => false)) .TypeKey bodyObject).trace.count
        (.send .TypeKey 0 2) = 0 := by
  refine ⟨rfl, by decide, by decide, by decide, by decide⟩

/-- C2: for every kind `K` and every body that `json.Unmarshal` rejects for
`K`, the dispatch method returns the decode error, wrapped and so not nil, the
trace holds the decode attempt and nothing else (no callback call, no send),
and the state, with every callback slot and subscriber set, is as before. -/
theorem dispatch_malformed (env : Env V) (s : Sentry) (K : WatchType) (b : Bytes) (e : Error)
    (hdec : env.Unmarshal K b = .error e) :
    (s.dispatch env K b).ret = .returned (some (Error.wrap e ""))
    ∧ (s.dispatch env K b).trace = [.unmarshal K b]
    ∧ (s.dispatch env K b).trace.filter Event.isDelivery = []
    ∧ (s.dispatch env K b).state = s := by
  cases K <;>
    simp [Sentry.dispatch, Sentry.key, Sentry.keyPrefix, Sentry.services, Sentry.nodes,
      Sentry.service, Sentry.checks, Sentry.event, notify, hdec, errors.Wrap, Event.isDelivery]

/-- C2, instance: the body `x` dispatched as services with a callback set. -/
theorem dispatch_malformed_witness :
    (sampleSentry.dispatch (sampleEnv (fun _ => true)) .TypeServices bodyGarbage).ret
        = .returned (some (Error.wrap (.base "invalid character") ""))
    ∧ (sampleSentry.dispatch (sampleEnv (fun _ => true)) .TypeServices bodyGarbage).trace
        = [.unmarshal .TypeServices bodyGarbage]
    ∧ (sampleSentry.dispatch (sampleEnv (fun _ => true)) .TypeServices bodyGarbage).trace.filter
        Event.isDelivery = []
    ∧ (sampleSentry.dispatch (sampleEnv (fun _ => true)) .TypeServices bodyGarbage).state
        = sampleSentry :=
  dispatch_malformed (sampleEnv (fun _ => true)) sampleSentry .TypeServices bodyGarbage
    (.base "invalid character") rfl

/-- C6: within one dispatch no channel send precedes a callback call: whenever
the trace is split at a callback call, the part before it holds no send; and
when the slot of `K` holds `f` and the payload decodes to `v`, the trace is a
part without sends, then the call of `f` on `v`, then a part without callback
calls, so every send of the dispatch comes after the one call. -/
theorem callback_before_sends (env : Env V) (s : Sentry) (K : WatchType) (b : Bytes) :
    (∀ pre post e, (s.dispatch env K b).trace = pre ++ e :: post → e.isCall = true →
        ∀ x ∈ pre, x.isSend = false)
    ∧ (∀ f v, s.funcOf K = some f → env.Unmarshal K b = .ok v →
        ∃ pre post, (s.dispatch env K b).trace = pre ++ Event.call K f v :: post
          ∧ (∀ x ∈ pre, x.isSend = false) ∧ (∀ x ∈ post, x.isCall = false)) := by
  constructor
  · intro pre post e h he
    cases K <;> exact notify_call_first env s _ _ _ b pre post e h he
  · intro f v hf hdec
    have key : ∀ chs, ∃ pre post,
        (notify env s K (some f) chs b).trace = pre ++ Event.call K f v :: post
          ∧ (∀ x ∈ pre, x.isSend = false) ∧ (∀ x ∈ post, x.isCall = false) := by
      intro chs
      obtain ⟨tail, ht, htail⟩ := notify_trace_ok env s K (some f) chs b v hdec
      refine ⟨[.unmarshal K b, .access (.read (.func K))],
        [.access .RLock, .access (.read (.chs K))] ++ tail, by simpa using ht, ?_, ?_⟩
      · intro x hx
        simp at hx
        rcases hx with rfl | rfl <;> rfl
      · intro x hx
        simp only [List.cons_append, List.nil_append, List.mem_cons] at hx
        rcases hx with rfl | rfl | hx
        · rfl
        · rfl
        · rcases htail x hx with ⟨c, _, rfl⟩ | rfl <;> rfl
    cases K <;> simp only [Sentry.funcOf] at hf <;>
      simp only [Sentry.dispatch, Sentry.key, Sentry.keyPrefix, Sentry.services, Sentry.nodes,
        Sentry.service, Sentry.checks, Sentry.event, hf] <;> exact key _

/-- C6, instance: the key dispatch of the sample state on the body `{}`. -/
theorem callback_before_sends_witness :
    (∀ pre post e,
        (sampleSentry.dispatch (sampleEnv (fun _ => true)) .TypeKey bodyObject).trace
          = pre ++ e :: post → e.isCall = true → ∀ x ∈ pre, x.isSend = false)
    ∧ (∃ pre post,
        (sampleSentry.dispatch (sampleEnv (fun _ => true)) .TypeKey bodyObject).trace
          = pre ++ Event.call .TypeKey 7 2 :: post
          ∧ (∀ x ∈ pre, x.isSend = false) ∧ (∀ x ∈ post, x.isCall = false)) :=
  ⟨(callback_before_sends (sampleEnv (fun _ => true)) sampleSentry .TypeKey bodyObject).1,
    (callback_before_sends (sampleEnv (fun _ => true)) sampleSentry .TypeKey bodyObject).2
      7 2 rfl rfl⟩

end Dispatch

/-! ## Registration -/

section Registration

variable {V : Type}

theorem dispatch_after_setFunc (env : Env V) (s : Sentry) (K : WatchType)
    (fn : Option FuncId) (b : Bytes) :
    (s.SetFunc K fn).state.dispatch env K b
      = notify env (s.SetFunc K fn).state K fn (s.chsOf K) b := by
  cases K <;> rfl

/-- C5: for every kind `K` and channel `ch`, after `DeleteXCh(ch)` the channel
is not in the set of `K`, every other channel is in it exactly if it was, the
sets of the other kinds, all callback slots and the remaining fields are as
before; whatever registration calls follow (a later `GetXCh` makes a new
channel, so none of them subscribes `ch`), no dispatch for `K` sends on `ch`;
deleting a channel that is not in the set leaves the whole state as it is, in
particular deleting `ch` a second time. -/
theorem deleteCh_unsubscribes (s : Sentry) (K : WatchType) (ch : Chan) :
    ch ∉ (s.DeleteCh K ch).state.chsOf K
    ∧ (∀ c, c ≠ ch → (c ∈ (s.DeleteCh K ch).state.chsOf K ↔ c ∈ s.chsOf K))
    ∧ (∀ K', K' ≠ K → (s.DeleteCh K ch).state.chsOf K' = s.chsOf K')
    ∧ (∀ K', (s.DeleteCh K ch).state.funcOf K' = s.funcOf K')
    ∧ (s.DeleteCh K ch).state.errorFunc = s.errorFunc
    ∧ (s.DeleteCh K ch).state.addr = s.addr
    ∧ (s.DeleteCh K ch).state.route = s.route
    ∧ (s.DeleteCh K ch).state.idx = s.idx
    ∧ (∀ (W : Type) (env : Env W) (ops : List Op) (b : Bytes) (k : WatchType) (w : W),
        (∀ k', Op.getCh k' ch ∉ ops) →
        Event.send k ch w ∉ (((s.DeleteCh K ch).state.applyAll ops).dispatch env K b).trace)
    ∧ (ch ∉ s.chsOf K → (s.DeleteCh K ch).state = s)
    ∧ ((s.DeleteCh K ch).state.DeleteCh K ch).state = (s.DeleteCh K ch).state := by
  have hnot : ch ∉ (s.DeleteCh K ch).state.chsOf K := by
    cases K <;> exact Finset.not_mem_erase ch _
  have hidem : ∀ t : Sentry, ch ∉ t.chsOf K → (t.DeleteCh K ch).state = t := by
    intro t ht
    cases t
    cases K <;>
      simp_all [Sentry.DeleteCh, Sentry.chsOf, Sentry.DeleteKeyCh, Sentry.DeleteKeyPrefixCh,
        Sentry.DeleteServicesCh, Sentry.DeleteNodesCh, Sentry.DeleteServiceCh,
        Sentry.DeleteChecksCh, Sentry.DeleteEventCh]
  refine ⟨hnot, ?_, ?_, ?_, ?_, ?_, ?_, ?_, ?_, hidem s, hidem _ hnot⟩
  · intro c hc
    cases K <;> exact ⟨fun h => Finset.mem_of_mem_erase h, fun h => Finset.mem_erase.mpr ⟨hc, h⟩⟩
  · intro K' hK'
    cases K <;> cases K' <;> first | rfl | exact absurd rfl hK'
  · intro K'
    cases K <;> cases K' <;> rfl
  · cases K <;> rfl
  · cases K <;> rfl
  · cases K <;> rfl
  · cases K <;> rfl
  · intro W env ops b k w hfresh hmem
    exact chsOf_applyAll ops _ K ch hfresh hnot (dispatch_send_mem env _ K b k ch w hmem).2

/-- C5, instance: deleting key subscriber `0` of the sample state leaves
subscriber `1`; a key dispatch then sends on `1` and not on `0`; deleting `0`
again changes nothing. -/
theorem deleteCh_unsubscribes_witness :
    (0 : Chan) ∈ sampleSentry.chsOf .TypeKey
    ∧ (0 : Chan) ∉ (sampleSentry.DeleteCh .TypeKey 0).state.chsOf .TypeKey
    ∧ (1 : Chan) ∈ (sampleSentry.DeleteCh .TypeKey 0).state.chsOf .TypeKey
    ∧ Event.send .TypeKey 0 2 ∉ ((sampleSentry.DeleteCh .TypeKey 0).state.dispatch
        (sampleEnv (fun _ => true)) .TypeKey bodyObject).trace
    ∧ Event.send .TypeKey 1 2 ∈ ((sampleSentry.DeleteCh .TypeKey 0).state.dispatch
        (sampleEnv (fun _ => true)) .TypeKey bodyObject).trace
    ∧ ((sampleSentry.DeleteCh .TypeKey 0).state.DeleteCh .TypeKey 0).state
        = (sampleSentry.DeleteCh .TypeKey 0).state :=
  ⟨by decide,
   (deleteCh_unsubscribes sampleSentry .TypeKey 0).1,
   by decide,
   (deleteCh_unsubscribes sampleSentry .TypeKey 0).2.2.2.2.2.2.2.2.1 Nat
     (sampleEnv (fun _ => true)) [] bodyObject .TypeKey 2 (fun _ h => nomatch h),
   by decide,
   (deleteCh_unsubscribes sampleSentry .TypeKey 0).2.2.2.2.2.2.2.2.2.2⟩

/-- C9: for every kind `K`, after `SetXFunc(f)` then `SetXFunc(g)` a dispatch of
a well-formed payload for `K` makes exactly one callback call, the call of `g`
on the decoded value, and none of `f` when `f` is another function; after
`SetXFunc(nil)` it makes no callback call, and returns nil when every
subscriber receives; and `SetXFunc` sets the slot of `K` and leaves every
subscriber set, the slots of the other kinds, the error callback and the
remaining fields as they were. -/
theorem setFunc_overwrites (env : Env V) (s : Sentry) (K : WatchType) (f g : FuncId)
    (b : Bytes) (v : V) (hdec : env.Unmarshal K b = .ok v) :
    (((s.SetFunc K (some f)).state.SetFunc K (some g)).state.dispatch env K b).trace.filter
        Event.isCall = [.call K g v]
    ∧ (f ≠ g → ∀ k w, Event.call k f w ∉
        (((s.SetFunc K (some f)).state.SetFunc K (some g)).state.dispatch env K b).trace)
    ∧ ((s.SetFunc K none).state.dispatch env K b).trace.filter Event.isCall = []
    ∧ ((∀ ch ∈ s.chsOf K, env.receiving ch = true) →
        ((s.SetFunc K none).state.dispatch env K b).ret = .returned none
        ∧ (((s.SetFunc K (some f)).state.SetFunc K (some g)).state.dispatch env K b).ret
            = .returned none)
    ∧ (∀ fn, (s.SetFunc K fn).state.funcOf K = fn
        ∧ (∀ K', (s.SetFunc K fn).state.chsOf K' = s.chsOf K')
        ∧ (∀ K', K' ≠ K → (s.SetFunc K fn).state.funcOf K' = s.funcOf K')
        ∧ (s.SetFunc K fn).state.errorFunc = s.errorFunc
        ∧ (s.SetFunc K fn).state.addr = s.addr
        ∧ (s.SetFunc K fn).state.route = s.route
        ∧ (s.SetFunc K fn).state.idx = s.idx) := by
  have hchs : ∀ (t : Sentry) fn K', (t.SetFunc K fn).state.chsOf K' = t.chsOf K' := by
    intro t fn K'
    cases K <;> cases K' <;> rfl
  have hcalls : (((s.SetFunc K (some f)).state.SetFunc K (some g)).state.dispatch env K b).trace.filter
      Event.isCall = [.call K g v] := by
    rw [dispatch_after_setFunc, notify_calls _ _ _ _ _ _ v hdec]
  refine ⟨hcalls, ?_, ?_, ?_, ?_⟩
  · intro hfg k w hmem
    have : Event.call k f w ∈ [Event.call K g v] := by
      rw [← hcalls]
      exact List.mem_filter.mpr ⟨hmem, rfl⟩
    rw [List.mem_singleton] at this
    cases this
    exact hfg rfl
  · rw [dispatch_after_setFunc, notify_calls _ _ _ _ _ _ v hdec]
  · intro hrecv
    constructor
    · rw [dispatch_after_setFunc]
      exact (notify_ok env _ K none _ b v hdec hrecv ▸ rfl)
    · rw [dispatch_after_setFunc]
      have hrecv' : ∀ ch ∈ (s.SetFunc K (some f)).state.chsOf K, env.receiving ch = true := by
        rw [hchs]
        exact hrecv
      exact (notify_ok env _ K (some g) _ b v hdec hrecv' ▸ rfl)
  · intro fn
    refine ⟨?_, hchs s fn, ?_, ?_, ?_, ?_, ?_⟩
    · cases K <;> rfl
    · intro K' hK'
      cases K <;> cases K' <;> first | rfl | exact absurd rfl hK'
    · cases K <;> rfl
    · cases K <;> rfl
    · cases K <;> rfl
    · cases K <;> rfl

/-- C9, instance: `SetKeyFunc(5)` then `SetKeyFunc(6)` on the sample state, and
the body `{}`: the one callback call is the call of `6`, and `5` is not
called. -/
theorem setFunc_overwrites_witness :
    (((sampleSentry.SetFunc .TypeKey (some 5)).state.SetFunc .TypeKey (some 6)).state.dispatch
        (sampleEnv (fun _ => true)) .TypeKey bodyObject).trace.filter Event.isCall
      = [.call .TypeKey 6 2]
    ∧ (∀ k w, Event.call k 5 w ∉
        (((sampleSentry.SetFunc .TypeKey (some 5)).state.SetFunc .TypeKey (some 6)).state.dispatch
          (sampleEnv (fun _ => true)) .TypeKey bodyObject).trace)
    ∧ ((sampleSentry.SetFunc .TypeKey none).state.dispatch
        (sampleEnv (fun _ => true)) .TypeKey bodyObject).trace.filter Event.isCall = []
    ∧ ((sampleSentry.SetFunc .TypeKey none).state.dispatch
        (sampleEnv (fun _ => true)) .TypeKey bodyObject).ret = .returned none :=
  ⟨(setFunc_overwrites (sampleEnv (fun _ => true)) sampleSentry .TypeKey 5 6 bodyObject 2 rfl).1,
   (setFunc_overwrites (sampleEnv (fun _ => true)) sampleSentry .TypeKey 5 6 bodyObject 2 rfl).2.1
     (by decide),
   (setFunc_overwrites (sampleEnv (fun _ => true)) sampleSentry .TypeKey 5 6 bodyObject 2
     rfl).2.2.1,
   ((setFunc_overwrites (sampleEnv (fun _ => true)) sampleSentry .TypeKey 5 6 bodyObject 2
     rfl).2.2.2.1 (fun _ _ => rfl)).1⟩

end Registration

/-! ## The HTTP handler -/

section Handler

variable {V : Type}

/-- C3 (as amended): whatever the type token, a request whose body cannot be
read is answered 400 (bad request); a body read without error that is empty
and not nil is answered 400 as well, and a nil body 500; in each of these
cases the handler returns with the state as it was and runs no dispatch
method: no decode, no callback call, no channel send. -/
theorem handler_rejects_body (env : Env V) (s : Sentry) (r : Request) :
    (r.readErr ≠ none →
        status (s.handler env r).trace = some http.StatusBadRequest
        ∧ noDispatch (s.handler env r).trace = true
        ∧ (s.handler env r).trace.filter Event.isDelivery = []
        ∧ (s.handler env r).state = s ∧ (s.handler env r).ret = .returned ())
    ∧ (r.readErr = none → r.body = some [] →
        status (s.handler env r).trace = some http.StatusBadRequest
        ∧ noDispatch (s.handler env r).trace = true
        ∧ (s.handler env r).trace.filter Event.isDelivery = []
        ∧ (s.handler env r).state = s ∧ (s.handler env r).ret = .returned ())
    ∧ (r.readErr = none → r.body = none →
        status (s.handler env r).trace = some http.StatusInternalServerError
        ∧ noDispatch (s.handler env r).trace = true
        ∧ (s.handler env r).trace.filter Event.isDelivery = []
        ∧ (s.handler env r).state = s ∧ (s.handler env r).ret = .returned ()) := by
  refine ⟨?_, ?_, ?_⟩
  · intro h
    cases he : r.readErr with
    | none => exact absurd he h
    | some e => simp [Sentry.handler, he, status, noDispatch, Event.isDecode, Event.isCall,
        Event.isSend, Event.isDelivery]
  · intro he hb
    simp [Sentry.handler, he, hb, status, noDispatch, Event.isDecode, Event.isCall,
      Event.isSend, Event.isDelivery]
  · intro he hb
    simp [Sentry.handler, he, hb, status, noDispatch, Event.isDecode, Event.isCall,
      Event.isSend, Event.isDelivery]

/-- C3, instance: a failed read and an empty body, both with the token `key`. -/
theorem handler_rejects_body_witness :
    (status (sampleSentry.handler (sampleEnv (fun _ => true)) reqReadFail).trace
        = some http.StatusBadRequest
      ∧ noDispatch (sampleSentry.handler (sampleEnv (fun _ => true)) reqReadFail).trace = true)
    ∧ (status (sampleSentry.handler (sampleEnv (fun _ => true)) reqEmpty).trace
        = some http.StatusBadRequest
      ∧ noDispatch (sampleSentry.handler (sampleEnv (fun _ => true)) reqEmpty).trace = true) :=
  ⟨⟨((handler_rejects_body (sampleEnv (fun _ => true)) sampleSentry reqReadFail).1
        (by decide)).1,
    ((handler_rejects_body (sampleEnv (fun _ => true)) sampleSentry reqReadFail).1
        (by decide)).2.1⟩,
   ⟨((handler_rejects_body (sampleEnv (fun _ => true)) sampleSentry reqEmpty).2.1
        rfl rfl).1,
    ((handler_rejects_body (sampleEnv (fun _ => true)) sampleSentry reqEmpty).2.1
        rfl rfl).2.1⟩⟩

/-- C3, counterexample to the claim as stated: a request whose body cannot be
read and a request whose body is read and empty get the same status, 400, which
is not the server-side failure status 500. -/
theorem read_failure_status_eq_empty_body_status :
    reqReadFail.readErr ≠ none
    ∧ reqEmpty.readErr = none ∧ reqEmpty.body = some []
    ∧ status (sampleSentry.handler (sampleEnv (fun _ => true)) reqReadFail).trace
        = status (sampleSentry.handler (sampleEnv (fun _ => true)) reqEmpty).trace
    ∧ status (sampleSentry.handler (sampleEnv (fun _ => true)) reqReadFail).trace
        ≠ some http.StatusInternalServerError
    ∧ status (sampleSentry.handler (sampleEnv (fun _ => true)) reqReadFail).trace
        = some http.StatusBadRequest := by
  refine ⟨by decide, rfl, rfl, by decide, by decide, by decide⟩

/-- C4 (as amended): for every request whose body is read without error and is
not empty and whose lower-cased type token is none of the seven tokens, the
handler runs no dispatch method (no decode, no per-kind callback call, no
send), answers 200 and not the dispatch-error status 500, returns with the
state as it was, and calls the error callback exactly once with that request
if one is set and not at all otherwise, in which case nothing is delivered. -/
theorem handler_unknown_type [DecidableEq V] (env : Env V) (s : Sentry) (r : Request)
    (b : Bytes) (hunk : ∀ K : WatchType, env.ToLower r.typeHeader ≠ K.String)
    (herr : r.readErr = none) (hbody : r.body = some b) (hne : b ≠ []) :
    noDispatch (s.handler env r).trace = true
    ∧ status (s.handler env r).trace = some http.StatusOK
    ∧ (s.handler env r).ret = .returned ()
    ∧ (s.handler env r).state = s
    ∧ (∀ f q, (s.handler env r).trace.count (.callError f q)
          = if s.errorFunc = some f ∧ q = r then 1 else 0)
    ∧ (s.errorFunc = none → (s.handler env r).trace.filter Event.isDelivery = []) := by
  rw [handler_default env s r b hunk herr hbody hne]
  cases hf : s.errorFunc with
  | none =>
    simp [status, noDispatch, Event.isDecode, Event.isCall, Event.isSend, Event.isDelivery]
  | some g =>
    refine ⟨by simp [noDispatch, Event.isDecode, Event.isCall, Event.isSend],
      by simp [status], rfl, rfl, ?_, by simp⟩
    intro f q
    simp only [List.cons_append, List.nil_append, List.count_cons, List.count_nil, beq_iff_eq,
      Event.callError.injEq, Option.some.injEq]
    by_cases h : g = f ∧ r = q
    · obtain ⟨h1, h2⟩ := h
      subst h1 h2
      simp
    · have h' : ¬ (g = f ∧ q = r) := fun ⟨a, c⟩ => h ⟨a, c.symm⟩
      simp [h, h']

/-- C4, instance: the token `bogus` with the body `{}` and error callback `9`. -/
theorem handler_unknown_type_witness :
    noDispatch (sampleSentry.handler (sampleEnv (fun _ => true)) reqBogus).trace = true
    ∧ status (sampleSentry.handler (sampleEnv (fun _ => true)) reqBogus).trace
        = some http.StatusOK
    ∧ (sampleSentry.handler (sampleEnv (fun _ => true)) reqBogus).trace.count
        (.callError 9 reqBogus) = 1 :=
  have h := handler_unknown_type (sampleEnv (fun _ => true)) sampleSentry reqBogus bodyObject
    (by intro K; cases K <;> decide) rfl rfl (by decide)
  ⟨h.1, h.2.1, by rw [h.2.2.2.2.1]; decide⟩

/-- C4, counterexample to the claim as stated: the token `bogus` is none of the
seven tokens and the error callback `9` is set, but the body is empty; the
handler answers 400 and does not call the error callback. -/
theorem unknown_type_empty_body_no_error_callback :
    (∀ K : WatchType, (sampleEnv (fun _ => true)).ToLower reqBogusEmpty.typeHeader ≠ K.String)
    ∧ sampleSentry.errorFunc = some 9
    ∧ (sampleSentry.handler (sampleEnv (fun _ => true)) reqBogusEmpty).trace.count
        (.callError 9 reqBogusEmpty) = 0
    ∧ (sampleSentry.handler (sampleEnv (fun _ => true)) reqBogusEmpty).trace.filter
        Event.isDelivery = [] := by
  refine ⟨by intro K; cases K <;> decide, rfl, by decide, by decide⟩

/-- C7 (as amended): for every kind `K` and every request whose body is read
without error and is not empty and whose type token has the token of `K` (the
value of `WatchType.String`) as its lower-casing, the handler passes the body
to the dispatch method of `K` and to no other: its trace is the trace of that
dispatch followed by the response, the one decode in it is the decode of that
body for `K`, every callback call and every send in it is of kind `K`, and the
error callback is not called. -/
theorem handler_routes_by_token (env : Env V) (s : Sentry) (K : WatchType) (r : Request)
    (b : Bytes) (ht : env.ToLower r.typeHeader = K.String) (herr : r.readErr = none)
    (hbody : r.body = some b) (hne : b ≠ []) :
    (∃ response, (s.handler env r).trace = (s.dispatch env K b).trace ++ response
        ∧ ∀ e ∈ response, (∃ c, e = Event.writeHeader c) ∨ (∃ m, e = Event.log m))
    ∧ Event.unmarshal K b ∈ (s.handler env r).trace
    ∧ (∀ k c, Event.unmarshal k c ∈ (s.handler env r).trace → k = K ∧ c = b)
    ∧ (∀ k f w, Event.call k f w ∈ (s.handler env r).trace → k = K)
    ∧ (∀ k ch w, Event.send k ch w ∈ (s.handler env r).trace → k = K ∧ ch ∈ s.chsOf K)
    ∧ (∀ f q, Event.callError f q ∉ (s.handler env r).trace) := by
  have hsplit : ∃ response, (s.handler env r).trace = (s.dispatch env K b).trace ++ response
      ∧ ∀ e ∈ response, (∃ c, e = Event.writeHeader c) ∨ (∃ m, e = Event.log m) := by
    rw [handler_of_token env s K r b ht herr hbody hne]
    cases (s.dispatch env K b).ret with
    | blocked => exact ⟨[], by simp, by simp⟩
    | returned e =>
      cases e with
      | none => exact ⟨[.writeHeader http.StatusOK], rfl, by simp⟩
      | some err =>
        exact ⟨[.writeHeader http.StatusInternalServerError, .log "callback"], rfl, by simp⟩
  obtain ⟨response, htr, hresp⟩ := hsplit
  have hmem : ∀ e ∈ (s.handler env r).trace,
      e ∈ (s.dispatch env K b).trace ∨ (∃ c, e = Event.writeHeader c) ∨ (∃ m, e = Event.log m) := by
    intro e he
    rw [htr] at he
    rcases List.mem_append.mp he with h | h
    · exact Or.inl h
    · exact Or.inr (hresp e h)
  refine ⟨⟨response, htr, hresp⟩, ?_, ?_, ?_, ?_, ?_⟩
  · rw [htr]
    exact List.mem_append_left _ (dispatch_decodes env s K b)
  · intro k c h
    rcases hmem _ h with h | ⟨_, h⟩ | ⟨_, h⟩
    · rcases dispatch_events env s K b _ h with h | ⟨_, h⟩ | ⟨_, _, h⟩ | ⟨_, _, h⟩ <;> cases h
      exact ⟨rfl, rfl⟩
    · cases h
    · cases h
  · intro k f w h
    rcases hmem _ h with h | ⟨_, h⟩ | ⟨_, h⟩
    · rcases dispatch_events env s K b _ h with h | ⟨_, h⟩ | ⟨_, _, h⟩ | ⟨_, _, h⟩ <;> cases h
      rfl
    · cases h
    · cases h
  · intro k ch w h
    rcases hmem _ h with h | ⟨_, h⟩ | ⟨_, h⟩
    · exact dispatch_send_mem env s K b k ch w h
    · cases h
    · cases h
  · intro f q h
    rcases hmem _ h with h | ⟨_, h⟩ | ⟨_, h⟩
    · rcases dispatch_events env s K b _ h with h | ⟨_, h⟩ | ⟨_, _, h⟩ | ⟨_, _, h⟩ <;> cases h
    · cases h
    · cases h

/-- C7, instance: the tokens `KEY`, `Key` and `key` with the body `{}` all
reach the key dispatch method. -/
theorem handler_routes_by_token_witness :
    Event.unmarshal .TypeKey bodyObject
        ∈ (sampleSentry.handler (sampleEnv (fun _ => true)) (reqTyped "KEY" bodyObject)).trace
    ∧ Event.unmarshal .TypeKey bodyObject
        ∈ (sampleSentry.handler (sampleEnv (fun _ => true)) (reqTyped "Key" bodyObject)).trace
    ∧ Event.unmarshal .TypeKey bodyObject
        ∈ (sampleSentry.handler (sampleEnv (fun _ => true)) (reqTyped "key" bodyObject)).trace
    ∧ (∀ k c, Event.unmarshal k c
        ∈ (sampleSentry.handler (sampleEnv (fun _ => true)) (reqTyped "KEY" bodyObject)).trace →
        k = .TypeKey ∧ c = bodyObject) :=
  ⟨(handler_routes_by_token (sampleEnv (fun _ => true)) sampleSentry .TypeKey
      (reqTyped "KEY" bodyObject) bodyObject (by decide) rfl rfl (by decide)).2.1,
   (handler_routes_by_token (sampleEnv (fun _ => true)) sampleSentry .TypeKey
      (reqTyped "Key" bodyObject) bodyObject (by decide) rfl rfl (by decide)).2.1,
   (handler_routes_by_token (sampleEnv (fun _ => true)) sampleSentry .TypeKey
      (reqTyped "key" bodyObject) bodyObject (by decide) rfl rfl (by decide)).2.1,
   (handler_routes_by_token (sampleEnv (fun _ => true)) sampleSentry .TypeKey
      (reqTyped "KEY" bodyObject) bodyObject (by decide) rfl rfl (by decide)).2.2.1⟩

/-- C7, counterexample to the claim as stated: the token `KEY` lower-cases to
the token of the key kind, but the body is empty; the handler answers 400 and
passes nothing to the key dispatch method: no decode, no callback call, no
send. -/
theorem recognised_token_empty_body_not_routed :
    (sampleEnv (fun _ => true)).ToLower (reqTyped "KEY" []).typeHeader
        = WatchType.TypeKey.String
    ∧ (reqTyped "KEY" []).readErr = none
    ∧ (reqTyped "KEY" []).body = some []
    ∧ Event.unmarshal .TypeKey []
        ∉ (sampleSentry.handler (sampleEnv (fun _ => true)) (reqTyped "KEY" [])).trace
    ∧ noDispatch (sampleSentry.handler (sampleEnv (fun _ => true)) (reqTyped "KEY" [])).trace
        = true
    ∧ status (sampleSentry.handler (sampleEnv (fun _ => true)) (reqTyped "KEY" [])).trace
        = some http.StatusBadRequest := by
  refine ⟨by decide, rfl, rfl, by decide, by decide, by decide⟩

/-- C8: for every request with a recognised type token and a body read without
error and not empty, the status the handler writes follows the result of the
dispatch method of that kind: it is 500 exactly if the dispatch returned an
error, which it does exactly if the body failed to decode, and 200 exactly if
the dispatch returned nil; no status is written exactly if the dispatch never
returned; so a decode error is answered 500 and never 200. -/
theorem handler_status_follows_dispatch (env : Env V) (s : Sentry) (K : WatchType)
    (r : Request) (b : Bytes) (ht : env.ToLower r.typeHeader = K.String)
    (herr : r.readErr = none) (hbody : r.body = some b) (hne : b ≠ []) :
    (status (s.handler env r).trace = some http.StatusInternalServerError
        ↔ ∃ e, (s.dispatch env K b).ret = .returned (some e))
    ∧ (status (s.handler env r).trace = some http.StatusOK
        ↔ (s.dispatch env K b).ret = .returned none)
    ∧ (status (s.handler env r).trace = none ↔ (s.dispatch env K b).ret = .blocked)
    ∧ ((∃ e, (s.dispatch env K b).ret = .returned (some e))
        ↔ ∃ e, env.Unmarshal K b = .error e)
    ∧ (∀ e, env.Unmarshal K b = .error e →
        status (s.handler env r).trace = some http.StatusInternalServerError
        ∧ status (s.handler env r).trace ≠ some http.StatusOK) := by
  have hnh := dispatch_no_header env s K b
  have hst : status (s.handler env r).trace
      = (match (s.dispatch env K b).ret with
         | .blocked => none
         | .returned (some _) => some http.StatusInternalServerError
         | .returned none => some http.StatusOK) := by
    rw [handler_of_token env s K r b ht herr hbody hne]
    cases hret : (s.dispatch env K b).ret with
    | blocked =>
      have := status_append (s.dispatch env K b).trace [] hnh
      simpa [status] using this
    | returned e =>
      cases e with
      | none => simp [status_append _ _ hnh, status]
      | some err => simp [status_append _ _ hnh, status]
  have hdecode : (∃ e, (s.dispatch env K b).ret = .returned (some e))
      ↔ ∃ e, env.Unmarshal K b = .error e := by
    have key : ∀ fn chs, (∃ e, (notify env s K fn chs b).ret = .returned (some e))
        ↔ ∃ e, env.Unmarshal K b = .error e := by
      intro fn chs
      cases hdec : env.Unmarshal K b with
      | error err => simp [notify, hdec, errors.Wrap]
      | ok v =>
        by_cases hdone : (sendAll env K v (env.range chs)).2 = true <;>
          simp [notify, hdec, hdone]
    cases K <;> exact key _ _
  have h500 : status (s.handler env r).trace = some http.StatusInternalServerError
      ↔ ∃ e, (s.dispatch env K b).ret = .returned (some e) := by
    rw [hst]
    cases (s.dispatch env K b).ret with
    | blocked => simp
    | returned e => cases e <;> simp [http.StatusOK, http.StatusInternalServerError]
  refine ⟨h500, ?_, ?_, hdecode, ?_⟩
  · rw [hst]
    cases (s.dispatch env K b).ret with
    | blocked => simp
    | returned e => cases e <;> simp [http.StatusOK, http.StatusInternalServerError]
  · rw [hst]
    cases (s.dispatch env K b).ret with
    | blocked => simp
    | returned e => cases e <;> simp
  · intro e he
    have h := h500.mpr (hdecode.mpr ⟨e, he⟩)
    exact ⟨h, by rw [h]; decide⟩

/-- C8, instance: the token `services` with the body `x`, which fails to
decode, is answered 500; with the body `{}` it is answered 200. -/
theorem handler_status_follows_dispatch_witness :
    status (sampleSentry.handler (sampleEnv (fun _ => true))
        (reqTyped "services" bodyGarbage)).trace = some http.StatusInternalServerError
    ∧ status (sampleSentry.handler (sampleEnv (fun _ => true))
        (reqTyped "services" bodyObject)).trace = some http.StatusOK :=
  ⟨((handler_status_follows_dispatch (sampleEnv (fun _ => true)) sampleSentry .TypeServices
      (reqTyped "services" bodyGarbage) bodyGarbage (by decide) rfl rfl (by decide)).2.2.2.2
      (.base "invalid character") rfl).1,
   (handler_status_follows_dispatch (sampleEnv (fun _ => true)) sampleSentry .TypeServices
      (reqTyped "services" bodyObject) bodyObject (by decide) rfl rfl (by decide)).2.1.mpr
      (by decide)⟩

end Handler

/-! ## Lock discipline -/

section Locking

variable {V : Type}

/-- C10 (as amended): the subscriber sets are accessed under the lock: `GetXCh`
and `DeleteXCh` write the set of their kind between `Lock` and `Unlock`, and
every dispatch method and the handler read a set only with the read lock held.
The callback slots are not covered by the lock: `SetXFunc` and `SetErrorFunc`
write the slot and do nothing else, a dispatch whose payload decodes reads the
slot before it takes the read lock, and the handler reads the error callback
slot on its default branch without any lock operation. -/
theorem lock_guards_subscriber_sets (env : Env V) (s : Sentry) (K : WatchType) (ch : Chan)
    (fn : Option FuncId) (r : Request) (b : Bytes) :
    (s.GetCh K ch).accesses = [.Lock, .write (.chs K), .Unlock]
    ∧ (s.DeleteCh K ch).accesses = [.Lock, .write (.chs K), .Unlock]
    ∧ guarded Field.isChs (s.GetCh K ch).accesses = true
    ∧ guarded Field.isChs (s.DeleteCh K ch).accesses = true
    ∧ guarded Field.isChs (accessesOf (s.dispatch env K b).trace) = true
    ∧ guarded Field.isChs (accessesOf (s.handler env r).trace) = true
    ∧ (s.SetFunc K fn).accesses = [.write (.func K)]
    ∧ (s.SetErrorFunc fn).accesses = [.write .errorFunc]
    ∧ guarded Field.isFunc (s.SetFunc K fn).accesses = false
    ∧ guarded Field.isFunc (s.SetErrorFunc fn).accesses = false
    ∧ (∀ v, env.Unmarshal K b = .ok v →
        guarded Field.isFunc (accessesOf (s.dispatch env K b).trace) = false)
    ∧ (∀ c, (∀ K' : WatchType, env.ToLower r.typeHeader ≠ K'.String) → r.readErr = none →
        r.body = some c → c ≠ [] →
        accessesOf (s.handler env r).trace = [.read .errorFunc]) := by
  have hdisp : ∀ (K' : WatchType) (b' : Bytes),
      guarded Field.isChs (accessesOf (s.dispatch env K' b').trace) = true := by
    intro K' b'
    rw [dispatch_accesses]
    cases env.Unmarshal K' b' with
    | error e => rfl
    | ok v =>
      by_cases hdone : (sendAll env K' v (env.range (s.chsOf K'))).2 = true
      · simp only [hdone, if_true]
        rfl
      · simp only [hdone]
        rfl
  refine ⟨by cases K <;> rfl, by cases K <;> rfl, by cases K <;> rfl, by cases K <;> rfl,
    hdisp K b, ?_, by cases K <;> rfl, rfl, by cases K <;> rfl, rfl, ?_, ?_⟩
  · rcases handler_accesses env s r with h | h | ⟨K', b', h⟩
    · rw [h]
      rfl
    · rw [h]
      rfl
    · rw [h]
      exact hdisp K' b'
  · intro v hdec
    rw [dispatch_accesses, hdec]
    rfl
  · intro c hunk herr hbody hne
    rw [handler_default env s r c hunk herr hbody hne]
    cases s.errorFunc <;> simp [accessesOf]

/-- C10, instance: the key dispatch of the sample state on the body `{}` reads
the callback slot with no lock held. -/
theorem lock_guards_subscriber_sets_witness :
    guarded Field.isFunc
      (accessesOf (sampleSentry.dispatch (sampleEnv (fun _ => true)) .TypeKey bodyObject).trace)
      = false :=
  (lock_guards_subscriber_sets (sampleEnv (fun _ => true)) sampleSentry .TypeKey 0 none
    reqEmpty bodyObject).2.2.2.2.2.2.2.2.2.2.1 2 rfl

/-- C10, counterexample to the claim as stated: `SetKeyFunc` writes the callback
slot without any lock operation, `SetErrorFunc` likewise, and the key dispatch
reads the slot before `RLock`. -/
theorem callback_slot_written_without_lock :
    (NewSentry.SetKeyFunc (some 7)).accesses = [.write (.func .TypeKey)]
    ∧ guarded Field.isFunc (NewSentry.SetKeyFunc (some 7)).accesses = false
    ∧ guarded Field.isFunc (NewSentry.SetErrorFunc (some 9)).accesses = false
    ∧ accessesOf (sampleSentry.key (sampleEnv (fun _ => true)) bodyObject).trace
        = [.read (.func .TypeKey), .RLock, .read (.chs .TypeKey), .RUnlock]
    ∧ guarded Field.isFunc
        (accessesOf (sampleSentry.key (sampleEnv (fun _ => true)) bodyObject).trace) = false := by
  refine ⟨rfl, rfl, rfl, by decide, by decide⟩

end Locking

end ConsulSentry
